import Mathlib

/-!
Verification development for the document-ingestion pipeline
(`ade_s3_handler.py`, `visual_grounding_helper.py`).

The embedding works over `List Char` for all string manipulation, with
`String` wrappers at the boundaries.  Python's `pathlib.PurePosixPath`
operations are modelled for relative slash-delimited paths (object-store
keys), which is the shape every key handled by the pipeline has.
-/

/-- Splitting a character list at every `'/'`, keeping empty groups.
Model of Python `str.split('/')`. -/
def splitSlash : List Char → List (List Char)
  | [] => [[]]
  | c :: cs =>
    if c = '/' then [] :: splitSlash cs
    else
      match splitSlash cs with
      | [] => [[c]]
      | g :: gs => (c :: g) :: gs

/-- Joining path components with `'/'`.  Model of `str(Path(*parts))`
for relative paths. -/
def joinSlash : List (List Char) → List Char
  | [] => []
  | [g] => g
  | g :: g2 :: gs => g ++ '/' :: joinSlash (g2 :: gs)

/-- Path components that `pathlib` keeps: non-empty and not `"."`. -/
def goodSeg (g : List Char) : Bool := decide (g ≠ [] ∧ g ≠ ['.'])

/-- Model of `PurePosixPath(s).parts` for a relative path: split at `'/'`
and drop empty and `"."` components, as pathlib's parser does. -/
def pathPartsL (cs : List Char) : List (List Char) :=
  (splitSlash cs).filter goodSeg

/-- Index of the last `'.'` in a character list, if any. -/
def lastDotIdx : List Char → Option Nat
  | [] => none
  | c :: cs =>
    match lastDotIdx cs with
    | some i => some (i + 1)
    | none => if c = '.' then some 0 else none

/-- Model of `PurePosixPath(name).stem`: the name without its suffix,
where the suffix starts at the last dot provided that dot is neither the
first nor the last character (pathlib's rule `0 < i < len(name) - 1`). -/
def pyStemL (name : List Char) : List Char :=
  match lastDotIdx name with
  | none => name
  | some i => if 0 < i ∧ i + 1 < name.length then name.take i else name

/-- Model of Python `s.replace('.md', repl)`: replace every occurrence of
`".md"` left to right, non-overlapping. -/
def replaceMd (repl : List Char) : List Char → List Char
  | '.' :: 'm' :: 'd' :: rest => repl ++ replaceMd repl rest
  | c :: rest => c :: replaceMd repl rest
  | [] => []

/-- Whether `".md"` occurs as a substring. -/
def hasMd : List Char → Bool
  | '.' :: 'm' :: 'd' :: _ => true
  | _ :: rest => hasMd rest
  | [] => false

/-- Model of `os.path.basename`: everything after the last `'/'`. -/
def osBasename (s : String) : String :=
  String.mk ((s.toList.reverse.takeWhile (fun c => c != '/')).reverse)

/-- Model of Python `str.startswith`, by characters. -/
def startsWithL (p s : String) : Bool := p.toList.isPrefixOf s.toList

/-- Model of Python `str.endswith`, by characters. -/
def endsWithL (p s : String) : Bool := p.toList.isSuffixOf s.toList

/-- Model of Python `str.lower()` on ASCII characters. -/
def pyLowerChar (c : Char) : Char :=
  if 65 ≤ c.toNat ∧ c.toNat ≤ 90 then Char.ofNat (c.toNat + 32) else c

/-- Model of Python `str.lower()`. -/
def pyLower (s : String) : String := String.mk (s.toList.map pyLowerChar)

/-- The family of output keys the handler derives for one uploaded
document, together with the intermediate values `subfolder` and
`filename_without_ext` that the handler keeps using afterwards
(`ade_s3_handler.py` lines 68-144).  `groundingFolder` is `none` in the
fallback branch, where the source defines no such variable. -/
structure OutputKeySet where
  markdownKey : String
  groundingFolder : Option String
  groundingKey : String
  chunksFolder : String
  subfolder : String
  stem : String
deriving DecidableEq, Repr

/-- Embedding of `relative_path = key[len(INPUT_FOLDER):]`
(`ade_s3_handler.py` line 68). -/
def relativePathL (inputFolder key : String) : List Char :=
  key.toList.drop inputFolder.toList.length

/-- Embedding of
`subfolder = str(path_parts.parent) if path_parts.parent != Path('.') else ''`
(`ade_s3_handler.py` line 72): the parent is `'.'` exactly when the
relative path has at most one component. -/
def subfolderL (inputFolder key : String) : List Char :=
  if (pathPartsL (relativePathL inputFolder key)).length ≤ 1 then []
  else joinSlash (pathPartsL (relativePathL inputFolder key)).dropLast

/-- Embedding of `filename = path_parts.name` (`ade_s3_handler.py` line 73). -/
def filenameL (inputFolder key : String) : List Char :=
  ((pathPartsL (relativePathL inputFolder key)).getLast?).getD []

/-- Embedding of `filename_without_ext = Path(filename).stem`
(`ade_s3_handler.py` line 77). -/
def stemL (inputFolder key : String) : List Char :=
  pyStemL (filenameL inputFolder key)

/-- Embedding of the markdown `output_key` construction
(`ade_s3_handler.py` lines 80-83). -/
def outputKeyL (inputFolder outputFolder key : String) : List Char :=
  if subfolderL inputFolder key ≠ [] ∧ subfolderL inputFolder key ≠ ['.'] then
    outputFolder.toList ++ subfolderL inputFolder key
      ++ '/' :: (stemL inputFolder key ++ ".md".toList)
  else
    outputFolder.toList ++ stemL inputFolder key ++ ".md".toList

/-- Embedding of the key-derivation logic of `ade_handler`
(`ade_s3_handler.py` lines 68-144), for a key that already passed the
skip guards: the markdown `output_key`, then
`path_parts = Path(output_key).parts` and the grounding/chunks derivation
with its `len(path_parts) >= 2` guard. -/
def deriveOutputKeySet (inputFolder outputFolder key : String) : OutputKeySet :=
  let subfolder := subfolderL inputFolder key
  let filename_without_ext := stemL inputFolder key
  let output_key := outputKeyL inputFolder outputFolder key
  let path_parts := pathPartsL output_key
  if 2 ≤ path_parts.length then
    let base_folder := joinSlash (path_parts.take 2)
    let rel := if 2 < path_parts.length then joinSlash (path_parts.drop 2)
               else (path_parts.getLast?).getD []
    let grounding_folder := base_folder ++ "_grounding".toList
    let chunks_folder := base_folder ++ "_chunks/".toList
    let grounding_filename := replaceMd "_grounding.json".toList rel
    { markdownKey := String.mk output_key
      groundingFolder := some (String.mk grounding_folder)
      groundingKey := String.mk (grounding_folder ++ '/' :: grounding_filename)
      chunksFolder := String.mk chunks_folder
      subfolder := String.mk subfolder
      stem := String.mk filename_without_ext }
  else
    { markdownKey := String.mk output_key
      groundingFolder := none
      groundingKey := String.mk (replaceMd "_grounding.json".toList output_key)
      chunksFolder := "output/chunks/"
      subfolder := String.mk subfolder
      stem := String.mk filename_without_ext }

/-- Key of one per-chunk JSON file:
`f"{chunks_folder}{filename_without_ext}_{chunk_id}.json"`
(`ade_s3_handler.py` line 253). -/
def perChunkKey (chunks_folder stem chunk_id : String) : String :=
  chunks_folder ++ stem ++ "_" ++ chunk_id ++ ".json"

/-- Key of a cropped chunk image:
`f"output/medical_chunk_images/{source_document}_{chunk_id}.png"`
(`visual_grounding_helper.py` line 91). -/
def chunkImageKey (source_document chunk_id : String) : String :=
  "output/medical_chunk_images/" ++ source_document ++ "_" ++ chunk_id ++ ".png"

/-- Integer pixel crop rectangle, as passed to `img.crop((x0, y0, x1, y1))`. -/
structure PixelBox where
  x0 : ℤ
  y0 : ℤ
  x1 : ℤ
  y1 : ℤ
deriving DecidableEq, Repr

/-- Model of Python `int()` on an exact rational: truncation toward zero. -/
def pyInt (q : ℚ) : ℤ := if 0 ≤ q then ⌊q⌋ else -⌊-q⌋

/-- Embedding of the normalized-box to pixel-crop computation of
`extract_chunk_image` (`visual_grounding_helper.py` lines 120-138), with
real arithmetic modelled exactly over `ℚ`: scale normalized coordinates
through PDF points to pixels, apply padding, clamp into the image. -/
def mapBoxToPixels (norm_x0 norm_y0 norm_x1 norm_y1 : ℚ)
    (page_width page_height : ℚ) (img_width img_height padding : ℤ) : PixelBox :=
  let pdf_x0 := norm_x0 * page_width
  let pdf_y0 := norm_y0 * page_height
  let pdf_x1 := norm_x1 * page_width
  let pdf_y1 := norm_y1 * page_height
  let scale_x := (img_width : ℚ) / page_width
  let scale_y := (img_height : ℚ) / page_height
  { x0 := max 0 (pyInt (pdf_x0 * scale_x) - padding)
    y0 := max 0 (pyInt (pdf_y0 * scale_y) - padding)
    x1 := min img_width (pyInt (pdf_x1 * scale_x) + padding)
    y1 := min img_height (pyInt (pdf_y1 * scale_y) + padding) }

/-- Outcome of the crop decision in `extract_chunk_image`: either the
full rendered page or a computed crop rectangle. -/
inductive CropResult where
  | fullPage : CropResult
  | cropped : PixelBox → CropResult
deriving DecidableEq, Repr

/-- Embedding of the crop decision of `extract_chunk_image`
(`visual_grounding_helper.py` lines 114-141):
`if not bbox or len(bbox) != 4:` use the full page, otherwise unpack the
four components and compute the clamped crop rectangle.  A `none` box
models Python `None`. -/
def chooseCropRegion (bbox : Option (List ℚ)) (page_width page_height : ℚ)
    (img_width img_height padding : ℤ) : CropResult :=
  match bbox with
  | none => .fullPage
  | some l =>
    if l.length ≠ 4 then .fullPage
    else
      match l with
      | [nx0, ny0, nx1, ny1] =>
          .cropped (mapBoxToPixels nx0 ny0 nx1 ny1 page_width page_height
            img_width img_height padding)
      | _ => .fullPage

/-- Embedding of the `CHUNK_TYPE_COLORS` lookup table of
`create_annotated_image_from_pdf` (`visual_grounding_helper.py` lines
226-238), keyed by the already-lowercased tag. -/
def lookupChunkTypeColor : String → ℕ × ℕ × ℕ
  | "text" => (40, 167, 69)
  | "table" => (0, 123, 255)
  | "marginalia" => (111, 66, 193)
  | "figure" => (255, 0, 255)
  | "logo" => (144, 238, 144)
  | "card" => (255, 165, 0)
  | "attestation" => (0, 255, 255)
  | "scancode" => (255, 193, 7)
  | "form" => (220, 20, 60)
  | "tablecell" => (173, 216, 230)
  | "default" => (128, 128, 128)
  | _ => (128, 128, 128)

/-- Embedding of
`CHUNK_TYPE_COLORS.get(chunk_type.lower(), CHUNK_TYPE_COLORS["default"])`
(`visual_grounding_helper.py` line 240). -/
def chunkTypeColor (chunk_type : String) : ℕ × ℕ × ℕ :=
  lookupChunkTypeColor (pyLower chunk_type)

/-- Optional-field bounding box as read back by
`grounding.get('box', {})` / `box.get(..., default)`
(`ade_s3_handler.py` lines 233-240). -/
structure BoxDict where
  left : Option ℚ
  top : Option ℚ
  right : Option ℚ
  bottom : Option ℚ
deriving DecidableEq, Repr

/-- Optional-field grounding entry of a chunk dictionary. -/
structure GroundingDict where
  page : Option ℤ
  box : Option BoxDict
deriving DecidableEq, Repr

/-- One chunk dictionary of the extracted grounding data, with every
field optional, mirroring the `chunk.get(field, default)` reads of the
per-chunk writing loop (`ade_s3_handler.py` lines 227-250). -/
structure ChunkDict where
  id : Option String
  type : Option String
  markdown : Option String
  grounding : Option GroundingDict
deriving DecidableEq, Repr

/-- The per-chunk JSON record written for the knowledge base
(`ade_s3_handler.py` lines 243-250). -/
structure ChunkJson where
  chunk_id : String
  chunk_type : String
  text : String
  bbox : List ℚ
  page : ℤ
  source_document : String
deriving DecidableEq, Repr

/-- Embedding of the construction of one per-chunk JSON record
(`ade_s3_handler.py` lines 232-250): bbox components default to
`[0, 0, 1, 1]` and the page to `0` when the grounding or box entries are
missing. -/
def buildChunkJson (c : ChunkDict) (filename_without_ext : String) : ChunkJson :=
  let grounding := c.grounding
  let box := grounding.bind GroundingDict.box
  { chunk_id := (c.id).getD ""
    chunk_type := (c.type).getD "text"
    text := (c.markdown).getD ""
    bbox := [(box.bind BoxDict.left).getD 0, (box.bind BoxDict.top).getD 0,
             (box.bind BoxDict.right).getD 1, (box.bind BoxDict.bottom).getD 1]
    page := (grounding.bind GroundingDict.page).getD 0
    source_document := filename_without_ext }

/-- Embedding of the per-chunk writing loop (`ade_s3_handler.py` lines
227-260): chunks whose id is missing or empty are skipped (`continue`),
every other chunk yields exactly one JSON object at its per-chunk key. -/
def writeChunkFiles (chunks : List ChunkDict) (chunks_folder stem : String) :
    List (String × ChunkJson) :=
  chunks.filterMap fun c =>
    if (c.id).getD "" = "" then none
    else some (perChunkKey chunks_folder stem ((c.id).getD ""), buildChunkJson c stem)

/-- Keys written by the grounding-saving section of the handler
(`ade_s3_handler.py` lines 210-264): nothing at all when the extracted
chunk list is empty (`if grounding_data['chunks']:`), otherwise the
grounding JSON followed by one file per chunk with a non-empty id. -/
def groundingPhaseWrites (chunks : List ChunkDict)
    (grounding_key chunks_folder stem : String) : List String :=
  if chunks = [] then []
  else grounding_key :: (writeChunkFiles chunks chunks_folder stem).map Prod.fst

/-- All object keys written for one successfully parsed document: the
markdown object (`ade_s3_handler.py` line 118) followed by the
grounding-phase writes. -/
def documentWrites (chunks : List ChunkDict)
    (output_key grounding_key chunks_folder stem : String) : List String :=
  output_key :: groundingPhaseWrites chunks grounding_key chunks_folder stem

/-- One per-document entry of the handler's `results` list: its status
string and the accompanying reason/error string, when any
(`ade_s3_handler.py` lines 90-95, 269-273, 279-283). -/
structure DocResult where
  status : String
  reason : Option String
deriving DecidableEq, Repr

/-- Embedding of the per-record control flow of `ade_handler`
(`ade_s3_handler.py` lines 44-99 and 269-283): the three silent skip
guards (`continue` with no result appended), the already-processed check
appending a `"skipped"` record, then the parse attempt appending
`"success"` or `"failed"`.  `outputExists` models the `head_object`
existence probe and `parseOutcome` the external parser: `none` for a
successful parse, `some err` for a raised error. -/
def recordOutcome (inputFolder outputFolder : String) (forceReprocess : Bool)
    (outputExists : String → Bool) (parseOutcome : String → Option String)
    (key : String) : Option DocResult :=
  if endsWithL "/" key then none
  else if osBasename key = "" then none
  else if ¬ startsWithL inputFolder key then none
  else
    if ¬ forceReprocess ∧
        outputExists (deriveOutputKeySet inputFolder outputFolder key).markdownKey then
      some { status := "skipped", reason := some "already_processed" }
    else
      match parseOutcome key with
      | none => some { status := "success", reason := none }
      | some err => some { status := "failed", reason := some err }

/-- Embedding of the batch loop of `ade_handler`: every record is
processed in order and contributes its outcome, if any, to `results`;
the handler itself always returns normally with this list
(`ade_s3_handler.py` lines 42-286). -/
def adeHandlerResults (inputFolder outputFolder : String) (forceReprocess : Bool)
    (outputExists : String → Bool) (parseOutcome : String → Option String)
    (keys : List String) : List DocResult :=
  keys.filterMap (recordOutcome inputFolder outputFolder forceReprocess
    outputExists parseOutcome)

/-- A well-formed path segment: non-empty, not the `"."` marker, and free
of the separator. -/
def IsSeg (g : List Char) : Prop := g ≠ [] ∧ g ≠ ['.'] ∧ '/' ∉ g

theorem splitSlash_ne_nil (cs : List Char) : splitSlash cs ≠ [] := by
  induction cs with
  | nil => simp [splitSlash]
  | cons c cs ih =>
    rw [splitSlash]
    split
    · simp
    · split
      · simp
      · simp

theorem splitSlash_noSlash (x : List Char) (h : '/' ∉ x) : splitSlash x = [x] := by
  induction x with
  | nil => rfl
  | cons c cs ih =>
    have hc : c ≠ '/' := fun hc => h (hc ▸ List.mem_cons_self c cs)
    have hcs : '/' ∉ cs := fun hm => h (List.mem_cons_of_mem c hm)
    rw [splitSlash, if_neg hc, ih hcs]

theorem splitSlash_append_slash (x t : List Char) (h : '/' ∉ x) :
    splitSlash (x ++ '/' :: t) = x :: splitSlash t := by
  induction x with
  | nil => simp [splitSlash]
  | cons c cs ih =>
    have hc : c ≠ '/' := fun hc => h (hc ▸ List.mem_cons_self c cs)
    have hcs : '/' ∉ cs := fun hm => h (List.mem_cons_of_mem c hm)
    rw [List.cons_append, splitSlash, if_neg hc, ih hcs]

theorem joinSlash_cons (g : List Char) (l : List (List Char)) (h : l ≠ []) :
    joinSlash (g :: l) = g ++ '/' :: joinSlash l := by
  cases l with
  | nil => exact absurd rfl h
  | cons g2 gs => rfl

theorem pathPartsL_joinSlash (L : List (List Char)) (hL : L ≠ [])
    (h : ∀ g ∈ L, IsSeg g) : pathPartsL (joinSlash L) = L := by
  induction L with
  | nil => exact absurd rfl hL
  | cons g gs ih =>
    have hg : IsSeg g := h g (List.mem_cons_self g gs)
    cases gs with
    | nil =>
      rw [joinSlash, pathPartsL, splitSlash_noSlash g hg.2.2]
      simp [goodSeg, hg.1, hg.2.1]
    | cons g2 gs2 =>
      rw [joinSlash_cons g (g2 :: gs2) (by simp), pathPartsL,
        splitSlash_append_slash g _ hg.2.2]
      have ih2 := ih (by simp) (fun a ha => h a (List.mem_cons_of_mem g ha))
      rw [pathPartsL] at ih2
      simp only [List.filter_cons]
      rw [ih2]
      simp [goodSeg, hg.1, hg.2.1]

theorem joinSlash_concat (L : List (List Char)) (x : List Char) (hL : L ≠ []) :
    joinSlash (L ++ [x]) = joinSlash L ++ '/' :: x := by
  induction L with
  | nil => exact absurd rfl hL
  | cons g gs ih =>
    cases gs with
    | nil => rfl
    | cons g2 gs2 =>
      rw [List.cons_append, joinSlash_cons g ((g2 :: gs2) ++ [x]) (by simp),
        joinSlash_cons g (g2 :: gs2) (by simp), ih (by simp)]
      simp

theorem joinSlash_concat_append (L : List (List Char)) (x y : List Char) :
    joinSlash (L ++ [x ++ y]) = joinSlash (L ++ [x]) ++ y := by
  cases L with
  | nil => rfl
  | cons g gs =>
    rw [joinSlash_concat _ _ (by simp), joinSlash_concat _ _ (by simp)]
    simp

theorem joinSlash_ne_nil (L : List (List Char)) (hL : L ≠ [])
    (h : ∀ g ∈ L, g ≠ []) : joinSlash L ≠ [] := by
  cases L with
  | nil => exact absurd rfl hL
  | cons g gs =>
    cases gs with
    | nil => exact h g (by simp)
    | cons g2 gs2 =>
      rw [joinSlash_cons g (g2 :: gs2) (by simp)]
      have := h g (by simp)
      cases g with
      | nil => exact absurd rfl this
      | cons c cs => simp

theorem joinSlash_ne_dot (L : List (List Char)) (hL : L ≠ [])
    (h : ∀ g ∈ L, g ≠ [] ∧ g ≠ ['.']) : joinSlash L ≠ ['.'] := by
  cases L with
  | nil => exact absurd rfl hL
  | cons g gs =>
    cases gs with
    | nil => exact (h g (by simp)).2
    | cons g2 gs2 =>
      rw [joinSlash_cons g (g2 :: gs2) (by simp)]
      have hg := (h g (by simp)).1
      cases g with
      | nil => exact absurd rfl hg
      | cons c cs =>
        intro hcontra
        have hlen := congrArg List.length hcontra
        simp at hlen

theorem hasMd_cons (c : Char) (l : List Char) (h : hasMd (c :: l) = false) :
    hasMd l = false := by
  rw [hasMd.eq_def] at h
  split at h
  · exact absurd h (by simp)
  · next heq =>
      injection heq with h1 h2
      rw [h2]
      exact h
  · next heq => exact absurd heq (by simp)

theorem replaceMd_append_md (repl : List Char) (u : List Char)
    (h : hasMd u = false) :
    replaceMd repl (u ++ ['.', 'm', 'd']) = u ++ repl := by
  induction u with
  | nil => simp [replaceMd]
  | cons c u ih =>
    have hu : hasMd u = false := hasMd_cons c u h
    have step : replaceMd repl ((c :: u) ++ ['.', 'm', 'd'])
        = c :: replaceMd repl (u ++ ['.', 'm', 'd']) := by
      rw [List.cons_append, replaceMd.eq_def]
      split
      · next heq =>
          -- the head of the list matched the pattern `'.' :: 'm' :: 'd' :: rest`
          exfalso
          cases u with
          | nil => simp at heq
          | cons a u2 =>
            cases u2 with
            | nil => simp at heq
            | cons b u3 =>
              injection heq with e1 e2
              injection e2 with e3 e4
              injection e4 with e5 e6
              rw [hasMd.eq_def] at h
              rw [e1, e3, e5] at h
              simp at h
      · next heq =>
          injection heq with e1 e2
          rw [e1, e2]
      · next heq => simp at heq
    rw [step, ih hu]
    simp

theorem pyStemL_subset (name : List Char) : pyStemL name ⊆ name := by
  rw [pyStemL]
  split
  · exact fun a ha => ha
  · split
    · exact List.take_subset _ _
    · exact fun a ha => ha

theorem deriveOutputKeySet_nested
    (inF : String) (oSeg first fname : List Char) (restSegs : List (List Char))
    (hO : IsSeg oSeg) (h1 : IsSeg first) (h2 : ∀ g ∈ restSegs, IsSeg g)
    (hf : IsSeg fname) :
    deriveOutputKeySet inF (String.mk (oSeg ++ ['/']))
      (inF ++ String.mk (joinSlash (first :: restSegs) ++ '/' :: fname)) =
    { markdownKey := String.mk ((oSeg ++ ['/']) ++ joinSlash (first :: restSegs)
        ++ '/' :: (pyStemL fname ++ ['.', 'm', 'd']))
      groundingFolder := some (String.mk ((oSeg ++ '/' :: first) ++ "_grounding".toList))
      groundingKey := String.mk ((oSeg ++ '/' :: first) ++ "_grounding".toList
        ++ '/' :: replaceMd "_grounding.json".toList
             (joinSlash (restSegs ++ [pyStemL fname ++ ['.', 'm', 'd']])))
      chunksFolder := String.mk ((oSeg ++ '/' :: first) ++ "_chunks/".toList)
      subfolder := String.mk (joinSlash (first :: restSegs))
      stem := String.mk (pyStemL fname) } := by
  have hmd : ".md".toList = ['.', 'm', 'd'] := rfl
  have hallify : ∀ g ∈ (first :: restSegs) ++ [fname], IsSeg g := by
    intro g hg
    rcases List.mem_append.mp hg with hg | hg
    · rcases List.mem_cons.mp hg with hg | hg
      · exact hg ▸ h1
      · exact h2 g hg
    · rw [List.mem_singleton.mp hg]; exact hf
  have hkey : (inF ++ String.mk (joinSlash (first :: restSegs)
        ++ '/' :: fname)).toList.drop inF.toList.length
      = joinSlash ((first :: restSegs) ++ [fname]) := by
    rw [joinSlash_concat _ _ (by simp)]
    show (inF.data ++ (joinSlash (first :: restSegs) ++ '/' :: fname)).drop
        inF.data.length = _
    rw [List.drop_left]
  have hparts0 : pathPartsL (joinSlash ((first :: restSegs) ++ [fname]))
      = (first :: restSegs) ++ [fname] :=
    pathPartsL_joinSlash _ (by simp) hallify
  have hlen1 : ¬ ((first :: restSegs) ++ [fname]).length ≤ 1 := by
    simp
  have hsub_ne : joinSlash (first :: restSegs) ≠ [] :=
    joinSlash_ne_nil _ (by simp)
      (fun g hg => (hallify g (List.mem_append_left _ hg)).1)
  have hsub_nd : joinSlash (first :: restSegs) ≠ ['.'] :=
    joinSlash_ne_dot _ (by simp)
      (fun g hg => ⟨(hallify g (List.mem_append_left _ hg)).1,
        (hallify g (List.mem_append_left _ hg)).2.1⟩)
  have hcond : joinSlash (first :: restSegs) ≠ [] ∧ joinSlash (first :: restSegs) ≠ ['.'] :=
    ⟨hsub_ne, hsub_nd⟩
  have hstemseg : IsSeg (pyStemL fname ++ ['.', 'm', 'd']) := by
    refine ⟨by simp, ?_, ?_⟩
    · intro hcontra
      have := congrArg List.length hcontra
      simp at this
    · intro hcontra
      rcases List.mem_append.mp hcontra with hg | hg
      · exact hf.2.2 (pyStemL_subset fname hg)
      · simp at hg
  have houtkey : (String.mk (oSeg ++ ['/'])).toList ++ joinSlash (first :: restSegs)
        ++ '/' :: (pyStemL fname ++ ['.', 'm', 'd'])
      = joinSlash ((oSeg :: first :: restSegs)
          ++ [pyStemL fname ++ ['.', 'm', 'd']]) := by
    rw [joinSlash_concat _ _ (by simp),
      joinSlash_cons oSeg (first :: restSegs) (by simp)]
    show (oSeg ++ ['/']) ++ joinSlash (first :: restSegs) ++ _ = _
    simp
  have hallout : ∀ g ∈ (oSeg :: first :: restSegs)
      ++ [pyStemL fname ++ ['.', 'm', 'd']], IsSeg g := by
    intro g hg
    rcases List.mem_append.mp hg with hg | hg
    · rcases List.mem_cons.mp hg with hg | hg
      · exact hg ▸ hO
      · rcases List.mem_cons.mp hg with hg2 | hg2
        · exact hg2 ▸ h1
        · exact h2 g hg2
    · rw [List.mem_singleton.mp hg]; exact hstemseg
  have hparts1 : pathPartsL (joinSlash ((oSeg :: first :: restSegs)
        ++ [pyStemL fname ++ ['.', 'm', 'd']]))
      = (oSeg :: first :: restSegs) ++ [pyStemL fname ++ ['.', 'm', 'd']] :=
    pathPartsL_joinSlash _ (by simp) hallout
  have hlen2 : 2 ≤ ((oSeg :: first :: restSegs)
      ++ [pyStemL fname ++ ['.', 'm', 'd']]).length := by
    simp
  have hlen3 : 2 < ((oSeg :: first :: restSegs)
      ++ [pyStemL fname ++ ['.', 'm', 'd']]).length := by
    simp
  have htake : ((oSeg :: first :: restSegs)
      ++ [pyStemL fname ++ ['.', 'm', 'd']]).take 2 = [oSeg, first] := by
    simp [List.take_succ_cons]
  have hdrop : ((oSeg :: first :: restSegs)
      ++ [pyStemL fname ++ ['.', 'm', 'd']]).drop 2
      = restSegs ++ [pyStemL fname ++ ['.', 'm', 'd']] := by
    simp
  have hrel : relativePathL inF
      (inF ++ String.mk (joinSlash (first :: restSegs) ++ '/' :: fname))
      = joinSlash ((first :: restSegs) ++ [fname]) := by
    simp only [relativePathL]
    exact hkey
  have hsubL : subfolderL inF
      (inF ++ String.mk (joinSlash (first :: restSegs) ++ '/' :: fname))
      = joinSlash (first :: restSegs) := by
    simp only [subfolderL, hrel, hparts0, if_neg hlen1, List.dropLast_concat]
  have hfileL : filenameL inF
      (inF ++ String.mk (joinSlash (first :: restSegs) ++ '/' :: fname)) = fname := by
    simp only [filenameL, hrel, hparts0, List.getLast?_concat, Option.getD_some]
  have hstemL : stemL inF
      (inF ++ String.mk (joinSlash (first :: restSegs) ++ '/' :: fname))
      = pyStemL fname := by
    simp only [stemL, hfileL]
  have houtL : outputKeyL inF (String.mk (oSeg ++ ['/']))
      (inF ++ String.mk (joinSlash (first :: restSegs) ++ '/' :: fname))
      = joinSlash ((oSeg :: first :: restSegs) ++ [pyStemL fname ++ ['.', 'm', 'd']]) := by
    simp only [outputKeyL, hsubL, hstemL, hmd, if_pos hcond]
    exact houtkey
  simp only [deriveOutputKeySet, houtL, hsubL, hstemL, hparts1, if_pos hlen2,
    if_pos hlen3, htake, hdrop]
  simp [joinSlash, List.append_assoc]
  rw [show first :: (restSegs ++ [pyStemL fname ++ ['.', 'm', 'd']])
      = (first :: restSegs) ++ [pyStemL fname ++ ['.', 'm', 'd']] from rfl,
    joinSlash_concat _ _ (by simp)]

theorem string_data_ext {s t : String} (h : s.data = t.data) : s = t :=
  congrArg String.mk h

instance (g : List Char) : Decidable (IsSeg g) :=
  inferInstanceAs (Decidable (g ≠ [] ∧ g ≠ ['.'] ∧ '/' ∉ g))

theorem pathPartsL_good {g cs : List Char} (h : g ∈ pathPartsL cs) :
    g ≠ [] ∧ g ≠ ['.'] := by
  have hm := List.mem_filter.mp h
  exact of_decide_eq_true hm.2

theorem subfolderL_ne_dot (inF key : String) : subfolderL inF key ≠ ['.'] := by
  rw [subfolderL]
  split
  · simp
  · next h =>
    apply joinSlash_ne_dot
    · intro hnil
      have hlen : (pathPartsL (relativePathL inF key)).dropLast.length = 0 := by
        rw [hnil]; rfl
      rw [List.length_dropLast] at hlen
      omega
    · intro g hg
      exact pathPartsL_good (List.dropLast_subset _ hg)

/-- C1 counterexample: for the input key `input/invoices/2024/acme.md.pdf`
(stem `acme.md`), the derived grounding key is NOT
`groundingFolder + "/" + path-below-first-segment-with-stem + "_grounding.json"`:
`str.replace(".md", ...)` also rewrites the `.md` inside the stem. -/
theorem c1_grounding_replace_counterexample :
    (deriveOutputKeySet "input/" "output/" "input/invoices/2024/acme.md.pdf").stem
        = "acme.md"
    ∧ (deriveOutputKeySet "input/" "output/" "input/invoices/2024/acme.md.pdf").groundingFolder
        = some "output/invoices_grounding"
    ∧ (deriveOutputKeySet "input/" "output/" "input/invoices/2024/acme.md.pdf").groundingKey
        = "output/invoices_grounding/2024/acme_grounding.json_grounding.json"
    ∧ (deriveOutputKeySet "input/" "output/" "input/invoices/2024/acme.md.pdf").groundingKey
        ≠ "output/invoices_grounding/2024/acme.md_grounding.json" := by
  decide

/-- C1 (amended): for every input key `inputFolder + subfolder-path + "/" + filename`
with a non-empty subfolder of well-formed segments, a single-segment output
folder, and no `".md"` occurrence in the joined path below the first
segment ending in the stem, the grounding/chunks sibling folders collapse
the subfolder to its first segment:
`groundingFolder = outputFolder + firstSegment + "_grounding"`,
`chunksFolder = outputFolder + firstSegment + "_chunks/"`, and
`groundingKey = groundingFolder + "/" + (path below the first segment with
the filename stem) + "_grounding.json"`. -/
theorem c1_grounding_collapse_amended
    (inF : String) (oSeg first fname : List Char) (restSegs : List (List Char))
    (hO : IsSeg oSeg) (h1 : IsSeg first) (h2 : ∀ g ∈ restSegs, IsSeg g)
    (hf : IsSeg fname)
    (hclean : hasMd (joinSlash (restSegs ++ [pyStemL fname])) = false) :
    (deriveOutputKeySet inF (String.mk (oSeg ++ ['/']))
        (inF ++ String.mk (joinSlash (first :: restSegs) ++ '/' :: fname))).groundingFolder
      = some (String.mk (oSeg ++ ['/']) ++ String.mk first ++ "_grounding")
    ∧ (deriveOutputKeySet inF (String.mk (oSeg ++ ['/']))
        (inF ++ String.mk (joinSlash (first :: restSegs) ++ '/' :: fname))).chunksFolder
      = String.mk (oSeg ++ ['/']) ++ String.mk first ++ "_chunks/"
    ∧ (deriveOutputKeySet inF (String.mk (oSeg ++ ['/']))
        (inF ++ String.mk (joinSlash (first :: restSegs) ++ '/' :: fname))).groundingKey
      = String.mk (oSeg ++ ['/']) ++ String.mk first ++ "_grounding/"
          ++ String.mk (joinSlash (restSegs ++ [pyStemL fname])) ++ "_grounding.json" := by
  rw [deriveOutputKeySet_nested inF oSeg first fname restSegs hO h1 h2 hf]
  refine ⟨?_, ?_, ?_⟩
  · refine congrArg some (string_data_ext ?_)
    simp [String.data_append]
  · refine string_data_ext ?_
    simp [String.data_append]
  · refine string_data_ext ?_
    rw [joinSlash_concat_append restSegs (pyStemL fname) ['.', 'm', 'd'],
      replaceMd_append_md _ _ hclean]
    simp [String.data_append]

/-- C1 witness: the amended theorem instantiated at the spec's scenario
`input/invoices/2024/acme.pdf` with output folder `output/`. -/
theorem c1_grounding_collapse_amended_witness :
    (deriveOutputKeySet "input/" (String.mk ("output".toList ++ ['/']))
        ("input/" ++ String.mk (joinSlash ("invoices".toList :: ["2024".toList])
          ++ '/' :: "acme.pdf".toList))).groundingFolder
      = some (String.mk ("output".toList ++ ['/']) ++ String.mk "invoices".toList
          ++ "_grounding")
    ∧ (deriveOutputKeySet "input/" (String.mk ("output".toList ++ ['/']))
        ("input/" ++ String.mk (joinSlash ("invoices".toList :: ["2024".toList])
          ++ '/' :: "acme.pdf".toList))).chunksFolder
      = String.mk ("output".toList ++ ['/']) ++ String.mk "invoices".toList ++ "_chunks/"
    ∧ (deriveOutputKeySet "input/" (String.mk ("output".toList ++ ['/']))
        ("input/" ++ String.mk (joinSlash ("invoices".toList :: ["2024".toList])
          ++ '/' :: "acme.pdf".toList))).groundingKey
      = String.mk ("output".toList ++ ['/']) ++ String.mk "invoices".toList ++ "_grounding/"
          ++ String.mk (joinSlash (["2024".toList] ++ [pyStemL "acme.pdf".toList]))
          ++ "_grounding.json" :=
  c1_grounding_collapse_amended "input/" "output".toList "invoices".toList
    "acme.pdf".toList ["2024".toList] (by decide) (by decide)
    (by intro g hg; simp at hg; rw [hg]; decide) (by decide) (by decide)

/-- C2: for every input key that starts with the input folder and does not
end in the separator, the derived markdown key equals
`outputFolder + subfolder + "/" + stem + ".md"` when the derived subfolder
is non-empty and `outputFolder + stem + ".md"` when it is empty; it always
ends in `".md"` whatever the source extension; and the derivation is a
pure function of its inputs. -/
theorem c2_markdown_key_derivation (inF outF key : String)
    (h1 : startsWithL inF key = true) (h2 : endsWithL "/" key = false) :
    ((deriveOutputKeySet inF outF key).subfolder ≠ "" →
      (deriveOutputKeySet inF outF key).markdownKey
        = outF ++ (deriveOutputKeySet inF outF key).subfolder ++ "/"
          ++ (deriveOutputKeySet inF outF key).stem ++ ".md")
    ∧ ((deriveOutputKeySet inF outF key).subfolder = "" →
      (deriveOutputKeySet inF outF key).markdownKey
        = outF ++ (deriveOutputKeySet inF outF key).stem ++ ".md")
    ∧ (∃ p, (deriveOutputKeySet inF outF key).markdownKey = p ++ ".md")
    ∧ (∀ k2, k2 = key →
        deriveOutputKeySet inF outF k2 = deriveOutputKeySet inF outF key) := by
  have hmk : (deriveOutputKeySet inF outF key).markdownKey
      = String.mk (outputKeyL inF outF key) := by
    simp only [deriveOutputKeySet]
    split <;> rfl
  have hsf : (deriveOutputKeySet inF outF key).subfolder
      = String.mk (subfolderL inF key) := by
    simp only [deriveOutputKeySet]
    split <;> rfl
  have hst : (deriveOutputKeySet inF outF key).stem
      = String.mk (stemL inF key) := by
    simp only [deriveOutputKeySet]
    split <;> rfl
  refine ⟨?_, ?_, ?_, fun k2 hk2 => by rw [hk2]⟩
  · intro hne
    rw [hsf] at hne
    have hne2 : subfolderL inF key ≠ [] := by
      intro hnil
      exact hne (by rw [hnil])
    rw [hmk, hsf, hst, outputKeyL, if_pos ⟨hne2, subfolderL_ne_dot inF key⟩]
    exact string_data_ext (by simp [String.data_append])
  · intro hemp
    rw [hsf] at hemp
    have hnil : subfolderL inF key = [] := by
      have := congrArg String.data hemp
      simpa using this
    rw [hmk, hst, outputKeyL, if_neg (by rw [hnil]; simp)]
    exact string_data_ext (by simp [String.data_append])
  · rw [hmk, outputKeyL]
    split
    · exact ⟨String.mk (outF.toList ++ subfolderL inF key ++ '/' :: stemL inF key),
        string_data_ext (by simp [String.data_append])⟩
    · exact ⟨String.mk (outF.toList ++ stemL inF key),
        string_data_ext (by simp [String.data_append])⟩

/-- C2 witness: the spec's example `input/medical/report.pdf`, whose
markdown key is `output/medical/report.md`. -/
theorem c2_markdown_key_derivation_witness :
    ((deriveOutputKeySet "input/" "output/" "input/medical/report.pdf").subfolder ≠ "" →
      (deriveOutputKeySet "input/" "output/" "input/medical/report.pdf").markdownKey
        = "output/" ++ (deriveOutputKeySet "input/" "output/" "input/medical/report.pdf").subfolder
          ++ "/" ++ (deriveOutputKeySet "input/" "output/" "input/medical/report.pdf").stem
          ++ ".md")
    ∧ ((deriveOutputKeySet "input/" "output/" "input/medical/report.pdf").subfolder = "" →
      (deriveOutputKeySet "input/" "output/" "input/medical/report.pdf").markdownKey
        = "output/" ++ (deriveOutputKeySet "input/" "output/" "input/medical/report.pdf").stem
          ++ ".md")
    ∧ (∃ p, (deriveOutputKeySet "input/" "output/" "input/medical/report.pdf").markdownKey
        = p ++ ".md")
    ∧ (∀ k2, k2 = "input/medical/report.pdf" →
        deriveOutputKeySet "input/" "output/" k2
          = deriveOutputKeySet "input/" "output/" "input/medical/report.pdf") :=
  c2_markdown_key_derivation "input/" "output/" "input/medical/report.pdf"
    (by decide) (by decide)

/-- C3: what the code actually does on `input/readme.txt` (no subfolder):
`Path("output/readme.md").parts` has two components, so the
`len(path_parts) >= 2` branch fires and the filename itself is treated as
the sibling-folder base, producing `output/readme.md_grounding/...` and
`output/readme.md_chunks/` instead of the documented flat fallback
(`output/readme_grounding.json`, `output/chunks/`). -/
theorem c3_flat_fallback_code_behavior :
    deriveOutputKeySet "input/" "output/" "input/readme.txt"
      = { markdownKey := "output/readme.md"
          groundingFolder := some "output/readme.md_grounding"
          groundingKey := "output/readme.md_grounding/readme_grounding.json"
          chunksFolder := "output/readme.md_chunks/"
          subfolder := ""
          stem := "readme" }
    ∧ (deriveOutputKeySet "input/" "output/" "input/readme.txt").groundingKey
        ≠ "output/readme_grounding.json"
    ∧ (deriveOutputKeySet "input/" "output/" "input/readme.txt").chunksFolder
        ≠ "output/chunks/" := by
  decide

theorem pyInt_scale_bounds (a c q : ℚ) (n : ℤ) (h0a : 0 ≤ a) (hac : a ≤ c)
    (hc1 : c ≤ 1) (hq : 0 < q) (hn : 0 < n) :
    0 ≤ pyInt (a * q * ((n : ℚ) / q))
    ∧ pyInt (a * q * ((n : ℚ) / q)) ≤ pyInt (c * q * ((n : ℚ) / q))
    ∧ pyInt (c * q * ((n : ℚ) / q)) ≤ n := by
  have hqne : q ≠ 0 := ne_of_gt hq
  have hna : (0 : ℚ) ≤ (n : ℚ) := by exact_mod_cast hn.le
  have hsimp : ∀ x : ℚ, x * q * ((n : ℚ) / q) = x * n := by
    intro x
    field_simp
    ring
  rw [hsimp, hsimp]
  have h0an : (0 : ℚ) ≤ a * n := mul_nonneg h0a hna
  have h0cn : (0 : ℚ) ≤ c * n := mul_nonneg (h0a.trans hac) hna
  have hmono : a * (n : ℚ) ≤ c * n := mul_le_mul_of_nonneg_right hac hna
  have hcn : c * (n : ℚ) ≤ (n : ℚ) := by
    calc c * (n : ℚ) ≤ 1 * n := mul_le_mul_of_nonneg_right hc1 hna
    _ = n := one_mul _
  rw [pyInt, if_pos h0an, pyInt, if_pos h0cn]
  exact ⟨Int.floor_nonneg.mpr h0an, Int.floor_le_floor hmono,
    (Int.floor_le_floor hcn).trans (le_of_eq (Int.floor_intCast n))⟩

/-- C4: for every normalized box with ordered components in the unit
square, positive page and image dimensions, and non-negative padding, the
computed pixel crop rectangle is a valid sub-rectangle of the rendered
page: `0 ≤ x0 ≤ x1 ≤ imageWidth` and `0 ≤ y0 ≤ y1 ≤ imageHeight`. -/
theorem c4_pixel_box_bounds (l t r b pw ph : ℚ) (W H p : ℤ)
    (h0l : 0 ≤ l) (hlr : l ≤ r) (hr1 : r ≤ 1)
    (h0t : 0 ≤ t) (htb : t ≤ b) (hb1 : b ≤ 1)
    (hpw : 0 < pw) (hph : 0 < ph) (hW : 0 < W) (hH : 0 < H) (hp : 0 ≤ p) :
    0 ≤ (mapBoxToPixels l t r b pw ph W H p).x0
    ∧ (mapBoxToPixels l t r b pw ph W H p).x0 ≤ (mapBoxToPixels l t r b pw ph W H p).x1
    ∧ (mapBoxToPixels l t r b pw ph W H p).x1 ≤ W
    ∧ 0 ≤ (mapBoxToPixels l t r b pw ph W H p).y0
    ∧ (mapBoxToPixels l t r b pw ph W H p).y0 ≤ (mapBoxToPixels l t r b pw ph W H p).y1
    ∧ (mapBoxToPixels l t r b pw ph W H p).y1 ≤ H := by
  obtain ⟨hA0, hAB, hBW⟩ := pyInt_scale_bounds l r pw W h0l hlr hr1 hpw hW
  obtain ⟨hC0, hCD, hDH⟩ := pyInt_scale_bounds t b ph H h0t htb hb1 hph hH
  simp only [mapBoxToPixels]
  refine ⟨le_max_left _ _, ?_, min_le_left _ _, le_max_left _ _, ?_, min_le_left _ _⟩
  · exact le_min (max_le hW.le (by omega)) (max_le (by omega) (by omega))
  · exact le_min (max_le hH.le (by omega)) (max_le (by omega) (by omega))

/-- C4 witness: the theorem at a full-page box on a US-letter page
rendered at 150 dpi with padding larger than the image. -/
theorem c4_pixel_box_bounds_witness :
    0 ≤ (mapBoxToPixels 0 0 1 1 612 792 1275 1650 10000).x0
    ∧ (mapBoxToPixels 0 0 1 1 612 792 1275 1650 10000).x0
        ≤ (mapBoxToPixels 0 0 1 1 612 792 1275 1650 10000).x1
    ∧ (mapBoxToPixels 0 0 1 1 612 792 1275 1650 10000).x1 ≤ 1275
    ∧ 0 ≤ (mapBoxToPixels 0 0 1 1 612 792 1275 1650 10000).y0
    ∧ (mapBoxToPixels 0 0 1 1 612 792 1275 1650 10000).y0
        ≤ (mapBoxToPixels 0 0 1 1 612 792 1275 1650 10000).y1
    ∧ (mapBoxToPixels 0 0 1 1 612 792 1275 1650 10000).y1 ≤ 1650 :=
  c4_pixel_box_bounds 0 0 1 1 612 792 1275 1650 10000
    (by norm_num) (by norm_num) (by norm_num) (by norm_num) (by norm_num)
    (by norm_num) (by norm_num) (by norm_num) (by norm_num) (by norm_num)
    (by norm_num)

/-- C5 counterexample: a four-component box with components outside
`[0, 1]` (left = 2, right = 3) is NOT replaced by the full-page result:
the code only checks the component count, and computes a clamped crop
rectangle (here a degenerate one with `x0 > x1`). -/
theorem c5_out_of_range_box_counterexample :
    chooseCropRegion (some [2, 0, 3, 1]) 1 1 100 50 10
      = CropResult.cropped ⟨190, 0, 100, 50⟩
    ∧ chooseCropRegion (some [2, 0, 3, 1]) 1 1 100 50 10 ≠ CropResult.fullPage := by
  have h : chooseCropRegion (some [2, 0, 3, 1]) 1 1 100 50 10
      = CropResult.cropped ⟨190, 0, 100, 50⟩ := by
    simp only [chooseCropRegion, mapBoxToPixels]
    norm_num [pyInt]
  exact ⟨h, by rw [h]; simp⟩

/-- C5 (amended): a bounding box that is absent or does not have exactly
four components yields the full-page result and no exception (the
embedded decision is a total function); a box with exactly four
components always goes down the crop-computation path, whatever the
component values, so out-of-range components are handled by coordinate
clamping rather than by the full-page substitute. -/
theorem c5_malformed_box_amended (bbox : Option (List ℚ)) (pw ph : ℚ) (W H p : ℤ) :
    ((bbox = none ∨ ∃ l, bbox = some l ∧ l.length ≠ 4) →
      chooseCropRegion bbox pw ph W H p = CropResult.fullPage)
    ∧ (∀ nx0 ny0 nx1 ny1, bbox = some [nx0, ny0, nx1, ny1] →
      chooseCropRegion bbox pw ph W H p
        = CropResult.cropped (mapBoxToPixels nx0 ny0 nx1 ny1 pw ph W H p)) := by
  constructor
  · rintro (rfl | ⟨l, rfl, hlen⟩)
    · rfl
    · simp [chooseCropRegion, if_pos hlen]
  · rintro nx0 ny0 nx1 ny1 rfl
    simp [chooseCropRegion]

/-- C5 witness: the spec's malformed example `[0.1, 0.2, 0.3]` (three
components) yields the full-page result. -/
theorem c5_malformed_box_amended_witness :
    ((some [1/10, 1/5, 3/10] = (none : Option (List ℚ))
        ∨ ∃ l, (some [1/10, 1/5, 3/10] : Option (List ℚ)) = some l ∧ l.length ≠ 4) →
      chooseCropRegion (some [1/10, 1/5, 3/10]) 612 792 1275 1650 10
        = CropResult.fullPage)
    ∧ (∀ nx0 ny0 nx1 ny1, (some [1/10, 1/5, 3/10] : Option (List ℚ))
          = some [nx0, ny0, nx1, ny1] →
      chooseCropRegion (some [1/10, 1/5, 3/10]) 612 792 1275 1650 10
        = CropResult.cropped (mapBoxToPixels nx0 ny0 nx1 ny1 612 792 1275 1650 10)) :=
  c5_malformed_box_amended (some [1/10, 1/5, 3/10]) 612 792 1275 1650 10

/-- C6: if the extracted chunk list of the grounding record is empty, the
pipeline writes only the markdown object — no grounding JSON and no
per-chunk files; when the chunk list is non-empty, the grounding JSON
artifact is among the writes. -/
theorem c6_empty_chunks_no_grounding (chunks : List ChunkDict)
    (output_key grounding_key chunks_folder stem : String) :
    (chunks = [] →
      documentWrites chunks output_key grounding_key chunks_folder stem = [output_key])
    ∧ (chunks ≠ [] →
      grounding_key ∈ documentWrites chunks output_key grounding_key chunks_folder stem) := by
  constructor
  · intro h
    rw [documentWrites, groundingPhaseWrites, if_pos h]
  · intro h
    rw [documentWrites, groundingPhaseWrites, if_neg h]
    exact List.mem_cons_of_mem _ (List.mem_cons_self _ _)

/-- C6 witness: a record with no chunks writes exactly the markdown
object; one with a single chunk includes the grounding artifact. -/
theorem c6_empty_chunks_no_grounding_witness :
    (([] : List ChunkDict) = [] →
      documentWrites [] "output/a/b.md" "output/a_grounding/b_grounding.json"
        "output/a_chunks/" "b" = ["output/a/b.md"])
    ∧ (([] : List ChunkDict) ≠ [] →
      "output/a_grounding/b_grounding.json"
        ∈ documentWrites [] "output/a/b.md" "output/a_grounding/b_grounding.json"
            "output/a_chunks/" "b") :=
  c6_empty_chunks_no_grounding [] "output/a/b.md"
    "output/a_grounding/b_grounding.json" "output/a_chunks/" "b"

/-- C7 counterexample: a batch with one record whose key is outside the
input prefix produces an empty results list — no per-document record at
all — contradicting "exactly one result record per document event". -/
theorem c7_missing_result_counterexample :
    adeHandlerResults "input/" "output/" false (fun _ => false) (fun _ => none)
        ["docs/readme.pdf"] = []
    ∧ ["docs/readme.pdf"].length = 1 := by
  constructor
  · rfl
  · rfl

/-- C7 (amended): each record contributes at most one result entry, and
the batch outcome decomposes record by record, so a failure on one
document never suppresses the processing of the remaining records; a
record that passes the three silent skip guards (directory placeholder,
empty basename, outside the input prefix) contributes exactly one entry;
every entry's status is `success`, `skipped`, or `failed`, and entries
with status `skipped` or `failed` carry a reason or error string. -/
theorem c7_per_record_results_amended (inF outF k : String) (ks : List String)
    (force : Bool) (ex : String → Bool) (po : String → Option String) :
    adeHandlerResults inF outF force ex po (k :: ks)
        = (recordOutcome inF outF force ex po k).toList
          ++ adeHandlerResults inF outF force ex po ks
    ∧ ((endsWithL "/" k = false ∧ osBasename k ≠ "" ∧ startsWithL inF k = true) →
        ∃ res, recordOutcome inF outF force ex po k = some res)
    ∧ (∀ res ∈ adeHandlerResults inF outF force ex po (k :: ks),
        (res.status = "success" ∨ res.status = "skipped" ∨ res.status = "failed")
        ∧ ((res.status = "skipped" ∨ res.status = "failed") → res.reason.isSome)) := by
  have hout : ∀ key res, recordOutcome inF outF force ex po key = some res →
      (res.status = "success" ∨ res.status = "skipped" ∨ res.status = "failed")
      ∧ ((res.status = "skipped" ∨ res.status = "failed") → res.reason.isSome) := by
    intro key res h
    rw [recordOutcome] at h
    split at h
    · exact absurd h (by simp)
    · split at h
      · exact absurd h (by simp)
      · split at h
        · exact absurd h (by simp)
        · split at h
          · rw [Option.some_inj.mp h.symm]
            exact ⟨Or.inr (Or.inl rfl), fun _ => rfl⟩
          · split at h
            · rw [Option.some_inj.mp h.symm]
              refine ⟨Or.inl rfl, fun hc => ?_⟩
              rcases hc with hc | hc <;> simp at hc
            · rw [Option.some_inj.mp h.symm]
              exact ⟨Or.inr (Or.inr rfl), fun _ => rfl⟩
  refine ⟨?_, ?_, ?_⟩
  · rw [adeHandlerResults, List.filterMap_cons, adeHandlerResults]
    rcases recordOutcome inF outF force ex po k with _ | res <;> simp
  · rintro ⟨hg1, hg2, hg3⟩
    rw [recordOutcome, if_neg (by rw [hg1]; simp), if_neg (by simpa using hg2),
      if_neg (by rw [hg3]; simp)]
    split
    · exact ⟨_, rfl⟩
    · rcases po k with _ | err
      · exact ⟨_, rfl⟩
      · exact ⟨_, rfl⟩
  · intro res hres
    rcases List.mem_filterMap.mp hres with ⟨key, _, hk⟩
    exact hout key res hk

/-- C7 witness: a one-record batch under the input prefix yields exactly
one `success` entry, and the guard-passing record has an outcome. -/
theorem c7_per_record_results_amended_witness :
    adeHandlerResults "input/" "output/" false (fun _ => false) (fun _ => none)
        ("input/a.pdf" :: [])
        = (recordOutcome "input/" "output/" false (fun _ => false) (fun _ => none)
            "input/a.pdf").toList
          ++ adeHandlerResults "input/" "output/" false (fun _ => false)
              (fun _ => none) []
    ∧ ((endsWithL "/" "input/a.pdf" = false ∧ osBasename "input/a.pdf" ≠ ""
          ∧ startsWithL "input/" "input/a.pdf" = true) →
        ∃ res, recordOutcome "input/" "output/" false (fun _ => false)
            (fun _ => none) "input/a.pdf" = some res)
    ∧ (∀ res ∈ adeHandlerResults "input/" "output/" false (fun _ => false)
          (fun _ => none) ("input/a.pdf" :: []),
        (res.status = "success" ∨ res.status = "skipped" ∨ res.status = "failed")
        ∧ ((res.status = "skipped" ∨ res.status = "failed") → res.reason.isSome)) :=
  c7_per_record_results_amended "input/" "output/" "input/a.pdf" [] false
    (fun _ => false) (fun _ => none)

/-- C8 counterexample: for `input/invoices/2024/acme.pdf` the handler's
sibling folders are based at `output/invoices`, but the cropped-chunk
image key is hardcoded under `output/medical_chunk_images/` — it does not
share the document's base folder, so the five keys do not all share one
base. -/
theorem c8_chunk_images_folder_counterexample :
    (deriveOutputKeySet "input/" "output/" "input/invoices/2024/acme.pdf").groundingFolder
        = some ("output/invoices" ++ "_grounding")
    ∧ chunkImageKey "acme" "c1" = "output/medical_chunk_images/acme_c1.png"
    ∧ startsWithL ("output/invoices" ++ "_chunk_images") (chunkImageKey "acme" "c1")
        = false := by
  decide

/-- C8 (amended): for every nested input key, the four keys derived by
the handler cluster under the shared base
`outputFolder + first subfolder segment` (not the subfolder leaf): the
markdown key extends `base + "/"`, the grounding folder is
`base + "_grounding"`, the grounding key extends `base + "_grounding/"`,
and the chunks folder is `base + "_chunks/"`; the chunk-image key,
however, always lives under the fixed folder
`output/medical_chunk_images/`, independent of the document. -/
theorem c8_sibling_folders_amended (inF : String)
    (oSeg first fname : List Char) (restSegs : List (List Char))
    (hO : IsSeg oSeg) (h1 : IsSeg first) (h2 : ∀ g ∈ restSegs, IsSeg g)
    (hf : IsSeg fname) (doc cid : String) :
    (∃ m, (deriveOutputKeySet inF (String.mk (oSeg ++ ['/']))
        (inF ++ String.mk (joinSlash (first :: restSegs) ++ '/' :: fname))).markdownKey
      = String.mk (oSeg ++ ['/']) ++ String.mk first ++ "/" ++ m)
    ∧ (deriveOutputKeySet inF (String.mk (oSeg ++ ['/']))
        (inF ++ String.mk (joinSlash (first :: restSegs) ++ '/' :: fname))).groundingFolder
      = some (String.mk (oSeg ++ ['/']) ++ String.mk first ++ "_grounding")
    ∧ (∃ g, (deriveOutputKeySet inF (String.mk (oSeg ++ ['/']))
        (inF ++ String.mk (joinSlash (first :: restSegs) ++ '/' :: fname))).groundingKey
      = String.mk (oSeg ++ ['/']) ++ String.mk first ++ "_grounding/" ++ g)
    ∧ (deriveOutputKeySet inF (String.mk (oSeg ++ ['/']))
        (inF ++ String.mk (joinSlash (first :: restSegs) ++ '/' :: fname))).chunksFolder
      = String.mk (oSeg ++ ['/']) ++ String.mk first ++ "_chunks/"
    ∧ (∃ i, chunkImageKey doc cid = "output/medical_chunk_images/" ++ i) := by
  rw [deriveOutputKeySet_nested inF oSeg first fname restSegs hO h1 h2 hf]
  refine ⟨?_, ?_, ?_, ?_, ?_⟩
  · cases restSegs with
    | nil =>
      refine ⟨String.mk (pyStemL fname ++ ['.', 'm', 'd']), string_data_ext ?_⟩
      simp [joinSlash, String.data_append]
    | cons rs1 rs2 =>
      refine ⟨String.mk (joinSlash (rs1 :: rs2) ++ '/' :: (pyStemL fname ++ ['.', 'm', 'd'])),
        string_data_ext ?_⟩
      rw [joinSlash_cons first (rs1 :: rs2) (by simp)]
      simp [String.data_append]
  · exact congrArg some (string_data_ext (by simp [String.data_append]))
  · refine ⟨String.mk (replaceMd "_grounding.json".toList
      (joinSlash (restSegs ++ [pyStemL fname ++ ['.', 'm', 'd']]))), string_data_ext ?_⟩
    simp [String.data_append]
  · exact string_data_ext (by simp [String.data_append])
  · exact ⟨doc ++ "_" ++ cid ++ ".png", string_data_ext (by simp [String.data_append, chunkImageKey])⟩

/-- C8 witness: the amended theorem at the scenario
`input/invoices/2024/acme.pdf` with a chunk image for document `acme`,
chunk `c1`. -/
theorem c8_sibling_folders_amended_witness :
    (∃ m, (deriveOutputKeySet "input/" (String.mk ("output".toList ++ ['/']))
        ("input/" ++ String.mk (joinSlash ("invoices".toList :: ["2024".toList])
          ++ '/' :: "acme.pdf".toList))).markdownKey
      = String.mk ("output".toList ++ ['/']) ++ String.mk "invoices".toList ++ "/" ++ m)
    ∧ (deriveOutputKeySet "input/" (String.mk ("output".toList ++ ['/']))
        ("input/" ++ String.mk (joinSlash ("invoices".toList :: ["2024".toList])
          ++ '/' :: "acme.pdf".toList))).groundingFolder
      = some (String.mk ("output".toList ++ ['/']) ++ String.mk "invoices".toList
          ++ "_grounding")
    ∧ (∃ g, (deriveOutputKeySet "input/" (String.mk ("output".toList ++ ['/']))
        ("input/" ++ String.mk (joinSlash ("invoices".toList :: ["2024".toList])
          ++ '/' :: "acme.pdf".toList))).groundingKey
      = String.mk ("output".toList ++ ['/']) ++ String.mk "invoices".toList
          ++ "_grounding/" ++ g)
    ∧ (deriveOutputKeySet "input/" (String.mk ("output".toList ++ ['/']))
        ("input/" ++ String.mk (joinSlash ("invoices".toList :: ["2024".toList])
          ++ '/' :: "acme.pdf".toList))).chunksFolder
      = String.mk ("output".toList ++ ['/']) ++ String.mk "invoices".toList ++ "_chunks/"
    ∧ (∃ i, chunkImageKey "acme" "c1" = "output/medical_chunk_images/" ++ i) :=
  c8_sibling_folders_amended "input/" "output".toList "invoices".toList
    "acme.pdf".toList ["2024".toList] (by decide) (by decide)
    (by intro g hg; simp at hg; rw [hg]; decide) (by decide) "acme" "c1"

/-- C9: the chunk-type-to-color mapping is a total pure lookup: fixed RGB
triples for the known tags (green for `text`, blue for `table`, magenta
for `figure`), case-insensitive matching via lowercasing, and the gray
default for every string whose lowercase form is not in the table. -/
theorem c9_chunk_type_color_table (s t : String) :
    chunkTypeColor "text" = (40, 167, 69)
    ∧ chunkTypeColor "table" = (0, 123, 255)
    ∧ chunkTypeColor "figure" = (255, 0, 255)
    ∧ (pyLower s = pyLower t → chunkTypeColor s = chunkTypeColor t)
    ∧ (pyLower s ∉ ["text", "table", "marginalia", "figure", "logo", "card",
        "attestation", "scancode", "form", "tablecell"] →
      chunkTypeColor s = (128, 128, 128)) := by
  refine ⟨by decide, by decide, by decide, ?_, ?_⟩
  · intro h
    rw [chunkTypeColor, chunkTypeColor, h]
  · intro h
    simp only [List.mem_cons, List.mem_singleton, not_or] at h
    rw [chunkTypeColor, lookupChunkTypeColor.eq_def]
    split <;> simp_all

/-- C9 witness: `TABLE` matches `table` case-insensitively, and an
unknown tag falls back to gray. -/
theorem c9_chunk_type_color_table_witness :
    chunkTypeColor "TABLE" = chunkTypeColor "table"
    ∧ chunkTypeColor "BaNaNa" = (128, 128, 128) :=
  ⟨(c9_chunk_type_color_table "TABLE" "table").2.2.2.1 (by decide),
   (c9_chunk_type_color_table "BaNaNa" "BaNaNa").2.2.2.2 (by decide)⟩

/-- C10: in the per-chunk writing loop, a chunk with no grounding entry
gets the full-page default `bbox = [0, 0, 1, 1]` and `page = 0` in its
JSON record; a chunk whose id is missing or empty is skipped without
writing a file; a chunk with a non-empty id yields exactly one file at
its per-chunk key. -/
theorem c10_chunk_json_defaults (c : ChunkDict) (chunks_folder stem : String) :
    (c.grounding = none →
      (buildChunkJson c stem).bbox = [0, 0, 1, 1] ∧ (buildChunkJson c stem).page = 0)
    ∧ ((c.id).getD "" = "" → writeChunkFiles [c] chunks_folder stem = [])
    ∧ ((c.id).getD "" ≠ "" →
      writeChunkFiles [c] chunks_folder stem
        = [(perChunkKey chunks_folder stem ((c.id).getD ""), buildChunkJson c stem)]) := by
  refine ⟨?_, ?_, ?_⟩
  · intro h
    constructor <;> simp [buildChunkJson, h]
  · intro h
    simp [writeChunkFiles, h]
  · intro h
    simp [writeChunkFiles, h]

/-- C10 witness: a groundingless chunk with id `c1` produces one JSON
file with the defaulted bbox and page, and an id-less chunk none. -/
theorem c10_chunk_json_defaults_witness :
    (((⟨some "c1", some "text", some "hello", none⟩ : ChunkDict).grounding = none →
      (buildChunkJson ⟨some "c1", some "text", some "hello", none⟩ "doc").bbox
          = [0, 0, 1, 1]
        ∧ (buildChunkJson ⟨some "c1", some "text", some "hello", none⟩ "doc").page = 0)
    ∧ (((⟨some "c1", some "text", some "hello", none⟩ : ChunkDict).id).getD "" = "" →
      writeChunkFiles [⟨some "c1", some "text", some "hello", none⟩]
        "output/medical_chunks/" "doc" = [])
    ∧ (((⟨some "c1", some "text", some "hello", none⟩ : ChunkDict).id).getD "" ≠ "" →
      writeChunkFiles [⟨some "c1", some "text", some "hello", none⟩]
          "output/medical_chunks/" "doc"
        = [(perChunkKey "output/medical_chunks/" "doc"
              (((⟨some "c1", some "text", some "hello", none⟩ : ChunkDict).id).getD ""),
            buildChunkJson ⟨some "c1", some "text", some "hello", none⟩ "doc")])) :=
  c10_chunk_json_defaults ⟨some "c1", some "text", some "hello", none⟩
    "output/medical_chunks/" "doc"
